import Mathlib

/-!
Verification of the core query layer of the github-projects-automation
repository, embedded from `src/.github/scripts/shared-utils.js`: the
retry executor `withRetry` (lines 45-68), the field resolver
`findProjectFields` (lines 225-254) with its `first: 50` field query
(lines 77-101), the item locators `findIssueProjectItem` (lines 263-280,
`first: 20` query at lines 106-123) and `findPRProjectItem` (lines
289-318, paginated `first: 100` query at lines 128-150), and the
branch-issue extractor `extractIssueFromBranch` (lines 326-339).

Remote transport is abstracted away: a query's result is modelled by the
data it returns (the capped field/membership lists), and a content object
that no longer resolves by `none`.  Logging and output emission are
dropped; everything the functions compute or throw is kept.
-/

namespace ProjectsAutomation

/-- A remote failure as seen by `withRetry`: only its `message` member is
ever read (shared-utils.js line 67). -/
structure RemoteError where
  message : String
deriving DecidableEq, Repr

/-- Outcome of one invocation of the wrapped operation `fn`. -/
inductive AttemptResult (α : Type) where
  | ok : α → AttemptResult α
  | err : RemoteError → AttemptResult α
deriving DecidableEq, Repr

/-- The message of the Error thrown at shared-utils.js line 67:
`` `${operation} failed after ${maxRetries} attempts. Last error:
${lastError.message}` ``. -/
def retryFailureMessage (operation : String) (maxRetries : Nat)
    (lastMessage : String) : String :=
  operation ++ " failed after " ++ toString maxRetries ++
    " attempts. Last error: " ++ lastMessage

/-- Final outcome of a `withRetry` call.  `exhausted msg` is the Error of
shared-utils.js line 67 carrying `retryFailureMessage`; `undefinedAccess`
is the TypeError produced at the same line when `lastError.message` is
read although `lastError` was never assigned. -/
inductive RetryOutcome (α : Type) where
  | ok : α → RetryOutcome α
  | exhausted : String → RetryOutcome α
  | undefinedAccess : RetryOutcome α
deriving DecidableEq, Repr

/-- Observable trace of a `withRetry` call: its outcome, how many times
`fn` was invoked, and how many inter-attempt delays (the `setTimeout` at
shared-utils.js line 62) were performed. -/
structure RetryTrace (α : Type) where
  outcome : RetryOutcome α
  invocations : Nat
  delays : Nat
deriving DecidableEq, Repr

/-- The `for (let attempt = 1; attempt <= maxRetries; attempt++)` loop of
`withRetry` (shared-utils.js lines 49-65).  The operation is a function
from the attempt number to that attempt's result; `remaining` counts the
iterations still allowed (`maxRetries - attempt + 1`); `lastError` is the
variable assigned at line 57.  A success returns at once (line 55); after
a failure the loop delays exactly when `attempt < maxRetries` (lines
60-63).  When the loop ends, line 67 throws an Error whose message reads
`lastError.message` — an undefined access when no iteration ever ran. -/
def withRetryAux (op : Nat → AttemptResult α) (label : String)
    (maxRetries : Nat) :
    Nat → Nat → Option String → Nat → Nat → RetryTrace α
  | 0, _, lastError, inv, del =>
    match lastError with
    | none => ⟨.undefinedAccess, inv, del⟩
    | some m => ⟨.exhausted (retryFailureMessage label maxRetries m), inv, del⟩
  | remaining + 1, attempt, _, inv, del =>
    match op attempt with
    | .ok a => ⟨.ok a, inv + 1, del⟩
    | .err e =>
      withRetryAux op label maxRetries remaining (attempt + 1)
        (some e.message) (inv + 1)
        (if remaining > 0 then del + 1 else del)

/-- `withRetry(fn, options)` of shared-utils.js lines 45-68: run `fn` up
to `maxRetries` times sequentially (default 3), returning the first
success; each failure followed by a further attempt incurs one delay;
after the last failure, throw the Error of line 67 built from the
`operation` label and `lastError.message`. -/
def withRetry (op : Nat → AttemptResult α) (label : String)
    (maxRetries : Nat) : RetryTrace α :=
  withRetryAux op label maxRetries maxRetries 1 none 0 0

/-- One option of a single-select field, as returned by the
`PROJECT_FIELDS` query (shared-utils.js lines 86-89): `{ id, name }`. -/
structure SelectOption where
  id : String
  name : String
deriving DecidableEq, Repr

/-- A board field as returned by the `PROJECT_FIELDS` query
(shared-utils.js lines 82-96).  A `ProjectV2SingleSelectField` node
carries an `options` array; a plain `ProjectV2Field` node carries no
`options` member (its unread `dataType` is omitted here), so `options`
is `none` exactly when the member is absent. -/
structure Field where
  id : String
  name : String
  options : Option (List SelectOption)
deriving DecidableEq, Repr

/-- The two Errors thrown by `findProjectFields`:
`Field '...' not found in project ...` (shared-utils.js line 235) and
`Option '...' not found in field '...'` (line 242), keyed by the name
that failed to resolve. -/
inductive ResolveError where
  | FieldNotFound : String → ResolveError
  | OptionNotFound : String → ResolveError
deriving DecidableEq, Repr

/-- The record returned by `findProjectFields` (shared-utils.js lines
249-253): `{ fieldId, optionId, field }`. -/
structure ResolveResult where
  fieldId : String
  optionId : Option String
  field : Field
deriving DecidableEq, Repr

/-- The field list delivered to `findProjectFields`: the `PROJECT_FIELDS`
query fetches `fields(first: 50)` (shared-utils.js line 81), so only the
board's first 50 fields are candidates. -/
def fetchBoardFields (allFields : List Field) : List Field :=
  allFields.take 50

/-- The body of `findProjectFields` after the fetch (shared-utils.js
lines 231-253), on the fetched field list.  `fields.find(f => f.name ===
fieldName)` selects the first exact-name match, else line 235 throws.
Line 239's `if (optionName && field.options)` runs the option lookup only
when `optionName` is a truthy (non-null, nonempty) string and the field
has an `options` member; then the first exact-name option wins or line
242 throws.  Otherwise `optionId` stays null. -/
def findProjectFields (fields : List Field) (fieldName : String)
    (optionName : Option String) : Except ResolveError ResolveResult :=
  match fields.find? (fun f => f.name == fieldName) with
  | none => .error (.FieldNotFound fieldName)
  | some field =>
    match optionName, field.options with
    | some oname, some opts =>
      if oname.isEmpty then .ok ⟨field.id, none, field⟩
      else
        match opts.find? (fun opt => opt.name == oname) with
        | none => .error (.OptionNotFound oname)
        | some opt => .ok ⟨field.id, some opt.id, field⟩
    | _, _ => .ok ⟨field.id, none, field⟩

/-- `findProjectFields` end to end (shared-utils.js lines 225-254): the
`first: 50` fetch followed by the matching body. -/
def resolveField (allFields : List Field) (fieldName : String)
    (optionName : Option String) : Except ResolveError ResolveResult :=
  findProjectFields (fetchBoardFields allFields) fieldName optionName

/-- One board membership of a content object, as returned by the item
queries (shared-utils.js lines 113-118 and 140-145):
`{ id, project: { id } }`, flattened here to `{ id, projectId }`. -/
structure ProjectItem where
  id : String
  projectId : String
deriving DecidableEq, Repr

/-- The membership page delivered to `findIssueProjectItem`: the
`ISSUE_PROJECT_ITEMS` query fetches `projectItems(first: 20)`
(shared-utils.js line 112), one page only. -/
def fetchIssueMemberships (memberships : List ProjectItem) : List ProjectItem :=
  memberships.take 20

/-- `findIssueProjectItem` (shared-utils.js lines 263-280).  The chain
`result.issue?.projectItems?.nodes?.find(...)` at lines 269-271 yields
undefined when the issue no longer resolves (`content = none`) and
otherwise the first fetched membership whose `project.id` equals the
target board; the function returns that item, or undefined when the find
misses. -/
def findIssueProjectItem (content : Option (List ProjectItem))
    (projectId : String) : Option ProjectItem :=
  match content with
  | none => none
  | some memberships =>
    (fetchIssueMemberships memberships).find?
      (fun item => item.projectId == projectId)

/-- Page size of the paginated PR membership query:
`projectItems(first: 100, after: $cursor)` (shared-utils.js line 135). -/
def prPageSize : Nat := 100

/-- The `while (hasNextPage && !projectItem)` loop of `findPRProjectItem`
(shared-utils.js lines 294-309).  The content object's full remote
membership list is `all`; the fetch at cursor position `idx` returns
items `idx * 100 .. idx * 100 + 99` with `pageInfo.hasNextPage` true
exactly when further items exist.  Each iteration re-checks that the PR
resolves (lines 301-304, returning null otherwise), takes the first
membership of the page on the target board (line 306), and advances the
cursor.  `fuel` bounds the iterations; `findPRProjectItem` passes enough
to cover every page, matching the guaranteed termination of the bounded
remote collection. -/
def findPRLoop (content : Option (List ProjectItem)) (projectId : String) :
    Nat → Nat → Option ProjectItem
  | 0, _ => none
  | fuel + 1, idx =>
    match content with
    | none => none
    | some all =>
      let page := (all.drop (idx * prPageSize)).take prPageSize
      let hasNextPage := prPageSize * (idx + 1) < all.length
      match page.find? (fun item => item.projectId == projectId) with
      | some item => some item
      | none =>
        if hasNextPage then findPRLoop content projectId fuel (idx + 1)
        else none

/-- `findPRProjectItem` (shared-utils.js lines 289-318): run the
paginated scan from the first page; a PR that no longer resolves yields
null immediately, and otherwise the loop ends with the first on-board
membership or null once `hasNextPage` is false. -/
def findPRProjectItem (content : Option (List ProjectItem))
    (projectId : String) : Option ProjectItem :=
  match content with
  | none => findPRLoop none projectId 1 0
  | some all =>
    findPRLoop (some all) projectId (all.length / prPageSize + 1) 0

/-- The characters of the literal search string `refs/heads/` of
shared-utils.js line 327. -/
def refsHeads : List Char := "refs/heads/".data

/-- JavaScript `str.replace(pat, '')` with a string `pat`
(shared-utils.js line 327): remove the FIRST occurrence of `pat`
anywhere in the string; a string without an occurrence is returned
unchanged.  In particular this is NOT a prefix-only strip: the
occurrence removed may sit in the middle of the string. -/
def replaceFirst (pat : List Char) : List Char → List Char
  | [] => []
  | c :: rest =>
    if pat.isPrefixOf (c :: rest) then (c :: rest).drop pat.length
    else c :: replaceFirst pat rest

/-- Result of `extractIssueFromBranch`: `null` (no match, or a falsy
first capture), a parsed number, or the NaN value that `parseInt`
produces on a non-numeric capture and that the function returns
unguarded. -/
inductive ExtractResult where
  | null : ExtractResult
  | num : Int → ExtractResult
  | nan : ExtractResult
deriving DecidableEq, Repr

/-- Numeric value of a run of decimal digit characters. -/
def digitsVal (ds : List Char) : Nat :=
  ds.foldl (fun a c => a * 10 + (c.toNat - 48)) 0

/-- Whitespace skipped by JavaScript `parseInt` before the number. -/
def isJsSpace (c : Char) : Bool :=
  c == ' ' || c == '\t' || c == '\n' || c == '\r' ||
    c == Char.ofNat 11 || c == Char.ofNat 12

/-- JavaScript `parseInt(s, 10)` (shared-utils.js line 332): skip
leading whitespace, accept an optional sign, then read the longest
leading digit run; no digits gives NaN, and trailing non-digits are
ignored. -/
def parseIntBase10 (s : List Char) : ExtractResult :=
  let t := s.dropWhile isJsSpace
  match t with
  | '-' :: rest =>
    let ds := rest.takeWhile Char.isDigit
    if ds.isEmpty then .nan else .num (-(digitsVal ds : Int))
  | '+' :: rest =>
    let ds := rest.takeWhile Char.isDigit
    if ds.isEmpty then .nan else .num ((digitsVal ds : Int))
  | _ =>
    let ds := t.takeWhile Char.isDigit
    if ds.isEmpty then .nan else .num ((digitsVal ds : Int))

/-- The match-then-parse tail of `extractIssueFromBranch`
(shared-utils.js lines 328-338), on the cleaned branch name.  The
compiled `new RegExp(regex)` is a parameter (the pattern arrives through
the REGEX environment variable): `none` for no match, `some none` for a
match whose group 1 is absent, `some (some cap)` for a match capturing
`cap`.  Line 331's `if (match && match[1])` requires the capture to be
truthy, so an empty capture also falls through to `return null`; a
truthy capture is handed to `parseInt(match[1], 10)` whose result is
returned unguarded. -/
def matchAndParse (patternMatch : List Char → Option (Option (List Char)))
    (name : List Char) : ExtractResult :=
  match patternMatch name with
  | some (some cap) =>
    if cap.isEmpty then .null else parseIntBase10 cap
  | some none => .null
  | none => .null

/-- `extractIssueFromBranch(branch, regex)` (shared-utils.js lines
326-339): `const cleanBranch = branch.replace('refs/heads/', '')`
removes the first occurrence of `refs/heads/` anywhere in the branch
name, then the compiled pattern is matched against `cleanBranch` and a
truthy first capture group is parsed with `parseInt(.., 10)`. -/
def extractIssueFromBranch
    (patternMatch : List Char → Option (Option (List Char)))
    (branch : String) : ExtractResult :=
  matchAndParse patternMatch (replaceFirst refsHeads branch.data)

/-- Attempted match of the regular expression `issue-(\d+)` at the start
of the subject: the literal `issue-` followed by a maximal nonempty digit
run, which is the capture. -/
def matchIssueAt (s : List Char) : Option (List Char) :=
  match s with
  | 'i' :: 's' :: 's' :: 'u' :: 'e' :: '-' :: rest =>
    let ds := rest.takeWhile Char.isDigit
    if ds.isEmpty then none else some ds
  | _ => none

/-- Leftmost match of `issue-(\d+)`: try each start position left to
right. -/
def findIssueMatch : List Char → Option (List Char)
  | [] => none
  | c :: rest =>
    match matchIssueAt (c :: rest) with
    | some ds => some ds
    | none => findIssueMatch rest

/-- Modelled from the spec: the pattern `issue-(\d+)` of the spec 8
extractor examples, as a match function returning the first capture
group of the leftmost match.  Patterns are not repository code — they
reach `extractIssueFromBranch` through the REGEX environment variable. -/
def issueNumberMatch (s : List Char) : Option (Option (List Char)) :=
  (findIssueMatch s).map (fun ds => some ds)

/-- Attempted match of the regular expression `issue-([a-z]+)` at the
start of the subject: the literal `issue-` followed by a maximal
nonempty lowercase-letter run, which is the capture. -/
def matchIssueAlphaAt (s : List Char) : Option (List Char) :=
  match s with
  | 'i' :: 's' :: 's' :: 'u' :: 'e' :: '-' :: rest =>
    let ds := rest.takeWhile (fun c => 'a' ≤ c && c ≤ 'z')
    if ds.isEmpty then none else some ds
  | _ => none

/-- Leftmost match of `issue-([a-z]+)`. -/
def findIssueAlphaMatch : List Char → Option (List Char)
  | [] => none
  | c :: rest =>
    match matchIssueAlphaAt (c :: rest) with
    | some ds => some ds
    | none => findIssueAlphaMatch rest

/-- A caller-supplied pattern `issue-([a-z]+)` whose capture group is
never numeric, used to exhibit the unguarded `parseInt` of
shared-utils.js line 332. -/
def issueAlphaMatch (s : List Char) : Option (Option (List Char)) :=
  (findIssueAlphaMatch s).map (fun ds => some ds)

/-! ## Helper lemmas -/

/-- With enough fuel to cover every remaining page, the paginated scan
over a resolvable PR starting at page `idx` computes the first match in
the remaining memberships. -/
theorem findPRLoop_eq_find (all : List ProjectItem) (pid : String) :
    ∀ fuel idx, all.length ≤ prPageSize * (idx + fuel) →
      findPRLoop (some all) pid fuel idx =
        (all.drop (idx * prPageSize)).find? (fun item => item.projectId == pid) := by
  intro fuel
  induction fuel with
  | zero =>
    intro idx h
    rw [List.drop_eq_nil_of_le
      (by simp only [prPageSize] at h ⊢; omega : all.length ≤ idx * prPageSize)]
    rfl
  | succ fuel ih =>
    intro idx h
    have hsplit : all.drop (idx * prPageSize) =
        (all.drop (idx * prPageSize)).take prPageSize ++
          all.drop ((idx + 1) * prPageSize) := by
      have h2 : (idx + 1) * prPageSize = idx * prPageSize + prPageSize := by ring
      rw [h2, ← List.drop_drop, List.take_append_drop]
    simp only [findPRLoop]
    cases hpage : ((all.drop (idx * prPageSize)).take prPageSize).find?
        (fun item => item.projectId == pid) with
    | some item =>
      simp only [hpage]
      rw [hsplit, List.find?_append, hpage]
      rfl
    | none =>
      simp only [hpage]
      by_cases hnext : prPageSize * (idx + 1) < all.length
      · rw [if_pos hnext, ih (idx + 1) (by simp only [prPageSize] at h ⊢; omega)]
        rw [hsplit, List.find?_append, hpage, Option.none_or]
      · rw [if_neg hnext]
        rw [hsplit, List.find?_append, hpage, Option.none_or]
        rw [List.drop_eq_nil_of_le
          (by simp only [prPageSize] at h hnext ⊢; omega :
            all.length ≤ (idx + 1) * prPageSize)]
        rfl

/-- For a resolvable PR, the paginated lookup equals the first match
over the full membership list. -/
theorem findPRProjectItem_some_eq (all : List ProjectItem) (pid : String) :
    findPRProjectItem (some all) pid =
      all.find? (fun item => item.projectId == pid) := by
  have h := findPRLoop_eq_find all pid (all.length / prPageSize + 1) 0
  simp only [findPRProjectItem]
  rw [h (by simp only [prPageSize]; omega)]
  simp

/-- Removing the first occurrence of a nonempty pattern that is a prefix
removes exactly that leading copy. -/
theorem replaceFirst_of_prefix (pat l : List Char) (hne : pat ≠ [])
    (h : pat.isPrefixOf l = true) : pat ++ replaceFirst pat l = l := by
  cases l with
  | nil =>
    have hp : pat <+: ([] : List Char) := by
      rw [← List.isPrefixOf_iff_prefix]
      exact h
    exact absurd (List.prefix_nil.mp hp) hne
  | cons c rest =>
    rw [replaceFirst, if_pos h]
    have hp : pat <+: (c :: rest) := by
      rw [← List.isPrefixOf_iff_prefix]
      exact h
    obtain ⟨t, ht⟩ := hp
    rw [← ht, List.drop_left]

/-- A string in which the pattern does not occur at all is returned
unchanged by the first-occurrence replacement. -/
theorem replaceFirst_of_no_occurrence (pat l : List Char)
    (h : ¬ pat <:+: l) : replaceFirst pat l = l := by
  induction l with
  | nil => rfl
  | cons c rest ih =>
    by_cases hp : pat <+: (c :: rest)
    · exact absurd hp.isInfix h
    · rw [replaceFirst, if_neg (by simpa using hp)]
      have hrest : ¬ pat <:+: rest := by
        intro hinf
        obtain ⟨s, t, hst⟩ := hinf
        exact h ⟨c :: s, t, by rw [← hst]; rfl⟩
      rw [ih hrest]

/-- An operation failing on attempts 1 and 2 and succeeding on attempt 3,
used to witness the retry policy. -/
def retryOpSucc3 : Nat → AttemptResult Nat := fun n =>
  if n = 3 then .ok 7 else .err ⟨"net down"⟩

/-- An operation failing on every attempt, used to witness retry
exhaustion. -/
def retryOpFailAll : Nat → AttemptResult Nat := fun _ => .err ⟨"net down"⟩

/-! ## Claim theorems -/

/-- C2: with the default policy of 3 attempts, an operation failing on
attempts 1 and 2 and succeeding on attempt 3 makes `withRetry` return the
attempt-3 result; an operation failing on all 3 attempts makes `withRetry`
throw the permanent failure whose message is built from the operation
label and the last failure's message; in both runs the operation is
invoked exactly 3 times with exactly 2 inter-attempt delays. -/
theorem withRetry_default_policy {α : Type} (op : Nat → AttemptResult α)
    (label : String) (v : α) (e1 e2 e3 : RemoteError) :
    (op 1 = .err e1 → op 2 = .err e2 → op 3 = .ok v →
      withRetry op label 3 = ⟨.ok v, 3, 2⟩) ∧
    (op 1 = .err e1 → op 2 = .err e2 → op 3 = .err e3 →
      withRetry op label 3 =
        ⟨.exhausted (retryFailureMessage label 3 e3.message), 3, 2⟩) := by
  constructor <;> intro h1 h2 h3 <;>
    simp [withRetry, withRetryAux, h1, h2, h3]

/-- C2 witness: the retry policy evaluated on the two concrete
operations. -/
theorem withRetry_default_policy_witness :
    withRetry retryOpSucc3 "update item" 3 = ⟨.ok 7, 3, 2⟩ ∧
    withRetry retryOpFailAll "update item" 3 =
      ⟨.exhausted (retryFailureMessage "update item" 3 "net down"), 3, 2⟩ := by
  constructor
  · exact (withRetry_default_policy retryOpSucc3 "update item" 7
      ⟨"net down"⟩ ⟨"net down"⟩ ⟨"net down"⟩).1 rfl rfl rfl
  · exact (withRetry_default_policy retryOpFailAll "update item" 7
      ⟨"net down"⟩ ⟨"net down"⟩ ⟨"net down"⟩).2 rfl rfl rfl

/-- C10: with fewer than 1 allowed attempt the underlying operation is
never invoked, and the call does not produce the documented permanent
failure: the final throw reads the message of a never-assigned
`lastError`, i.e. it fails with the undefined-access outcome. -/
theorem withRetry_zero_attempts {α : Type} (op : Nat → AttemptResult α)
    (label : String) :
    withRetry op label 0 = ⟨.undefinedAccess, 0, 0⟩ ∧
    ∀ msg, (withRetry op label 0).outcome ≠ .exhausted msg := by
  constructor
  · rfl
  · intro msg
    simp [withRetry, withRetryAux]

/-- C10 witness: the zero-attempt behaviour on a concrete operation. -/
theorem withRetry_zero_attempts_witness :
    withRetry retryOpFailAll "remove item" 0 = ⟨.undefinedAccess, 0, 0⟩ :=
  (withRetry_zero_attempts retryOpFailAll "remove item").1

/-- C7: the extractor maps `refs/heads/issue-42-fix` and `issue-42-fix`
to 42 under the pattern `issue-(\d+)`, and `main` to null. -/
theorem extractIssueFromBranch_examples :
    extractIssueFromBranch issueNumberMatch "refs/heads/issue-42-fix" = .num 42 ∧
    extractIssueFromBranch issueNumberMatch "issue-42-fix" = .num 42 ∧
    extractIssueFromBranch issueNumberMatch "main" = .null := by
  refine ⟨?_, ?_, ?_⟩ <;> decide

/-- C8: under the pattern `issue-([a-z]+)` the branch `issue-abc`
matches with the truthy non-numeric capture `abc`, and the extractor
neither fails nor returns null: it returns the NaN value of the
unguarded `parseInt`. -/
theorem extractIssueFromBranch_nan :
    issueAlphaMatch (replaceFirst refsHeads ("issue-abc".data)) =
      some (some ['a', 'b', 'c']) ∧
    extractIssueFromBranch issueAlphaMatch "issue-abc" = .nan ∧
    extractIssueFromBranch issueAlphaMatch "issue-abc" ≠ .null := by
  refine ⟨?_, ?_, ?_⟩ <;> decide

/-- C1: the paginated PR lookup equals the first match over the whole
membership list — a membership on the target board is found no matter
which page (including the last) it lies on; the result is null exactly
when no membership of any page is on the target board; and an
unresolvable content object yields null immediately. -/
theorem findPRProjectItem_pagination (all : List ProjectItem) (pid : String) :
    findPRProjectItem none pid = none ∧
    findPRProjectItem (some all) pid =
      all.find? (fun item => item.projectId == pid) ∧
    (findPRProjectItem (some all) pid = none ↔
      ∀ item ∈ all, item.projectId ≠ pid) := by
  refine ⟨rfl, findPRProjectItem_some_eq all pid, ?_⟩
  rw [findPRProjectItem_some_eq all pid, List.find?_eq_none]
  simp

/-- A membership list of 150 entries whose only target-board membership
lies on the second page of the paginated fetch. -/
def prWitnessList : List ProjectItem :=
  List.replicate 149 ⟨"m0", "other"⟩ ++ [⟨"m1", "board1"⟩]

/-- C1 witness: on a membership list whose only target-board membership
lies on the second page, the paginated lookup computes the first match
over the whole list. -/
theorem findPRProjectItem_pagination_witness :
    findPRProjectItem (some prWitnessList) "board1" =
      prWitnessList.find? (fun item => item.projectId == "board1") :=
  (findPRProjectItem_pagination prWitnessList "board1").2.1

/-- C5: for a resolvable issue the lookup considers only the single
fetched page of at most 20 memberships; a returned membership is on the
target board and is the first such membership of that page, and the
lookup returns null exactly when no fetched membership is on the target
board. -/
theorem findIssueProjectItem_spec (memberships : List ProjectItem)
    (pid : String) :
    (∀ item, findIssueProjectItem (some memberships) pid = some item →
      item.projectId = pid ∧
      ∃ l1 l2, fetchIssueMemberships memberships = l1 ++ item :: l2 ∧
        ∀ j ∈ l1, j.projectId ≠ pid) ∧
    (findIssueProjectItem (some memberships) pid = none ↔
      ∀ item ∈ fetchIssueMemberships memberships, item.projectId ≠ pid) := by
  have hred : findIssueProjectItem (some memberships) pid =
      (fetchIssueMemberships memberships).find?
        (fun item => item.projectId == pid) := rfl
  constructor
  · intro item h
    rw [hred, List.find?_eq_some] at h
    obtain ⟨hp, l1, l2, hsplit, hleft⟩ := h
    refine ⟨by simpa using hp, l1, l2, hsplit, ?_⟩
    intro j hj
    have := hleft j hj
    simpa using this
  · rw [hred, List.find?_eq_none]
    simp

/-- C5 witness: with the only target-board membership at position 21,
the single-page issue lookup misses it, and with one inside the page it
returns the first one on the board. -/
theorem findIssueProjectItem_spec_witness :
    findIssueProjectItem
        (some ((List.replicate 20 ⟨"m0", "other"⟩ : List ProjectItem) ++
          [⟨"m1", "board1"⟩])) "board1" = none ∧
    (⟨"m2", "board1"⟩ : ProjectItem).projectId = "board1" := by
  constructor
  · exact (findIssueProjectItem_spec
      (List.replicate 20 ⟨"m0", "other"⟩ ++ [⟨"m1", "board1"⟩])
      "board1").2.mpr (by decide)
  · exact ((findIssueProjectItem_spec
      [⟨"m2", "board1"⟩] "board1").1 ⟨"m2", "board1"⟩ (by decide)).1

/-- C9: whenever either locator returns a membership, that membership's
board id equals the `projectId` argument of the call — neither locator
ever returns a membership of a different board. -/
theorem locators_return_target_board
    (contentIssue contentPR : Option (List ProjectItem)) (pid : String) :
    (∀ item, findIssueProjectItem contentIssue pid = some item →
      item.projectId = pid) ∧
    (∀ item, findPRProjectItem contentPR pid = some item →
      item.projectId = pid) := by
  constructor
  · intro item h
    cases contentIssue with
    | none => exact absurd h (by simp [findIssueProjectItem])
    | some memberships =>
      have hred : findIssueProjectItem (some memberships) pid =
          (fetchIssueMemberships memberships).find?
            (fun item => item.projectId == pid) := rfl
      rw [hred] at h
      have := List.find?_some h
      simpa using this
  · intro item h
    cases contentPR with
    | none => exact absurd h (by simp [findPRProjectItem, findPRLoop])
    | some all =>
      rw [findPRProjectItem_some_eq all pid] at h
      have := List.find?_some h
      simpa using this

/-- C9 witness: both locators evaluated where they return a membership,
whose board id is the target board. -/
theorem locators_return_target_board_witness :
    (⟨"m5", "board9"⟩ : ProjectItem).projectId = "board9" ∧
    (⟨"m6", "board9"⟩ : ProjectItem).projectId = "board9" := by
  constructor
  · exact (locators_return_target_board (some [⟨"m5", "board9"⟩]) none
      "board9").1 ⟨"m5", "board9"⟩ (by decide)
  · exact (locators_return_target_board none
      (some [⟨"m6", "board9"⟩]) "board9").2 ⟨"m6", "board9"⟩ (by decide)

/-- C6 counterexample: `replace('refs/heads/', '')` removes the first
occurrence anywhere, so a branch whose only `refs/heads/` occurrence is
away from the start is NOT matched unmodified: `feature/refs/heads/x`
becomes `feature/x`, and on `issue-refs/heads/42` the extractor matches
the cleaned name `issue-42` (yielding 42) where matching the unmodified
branch would yield null. -/
theorem extractIssueFromBranch_strip_counterexample :
    replaceFirst refsHeads ("feature/refs/heads/x".data) =
      "feature/x".data ∧
    replaceFirst refsHeads ("feature/refs/heads/x".data) ≠
      "feature/refs/heads/x".data ∧
    extractIssueFromBranch issueNumberMatch "issue-refs/heads/42" =
      .num 42 ∧
    matchAndParse issueNumberMatch ("issue-refs/heads/42".data) = .null := by
  refine ⟨?_, ?_, ?_, ?_⟩ <;> decide

/-- C6 (amended): before matching, the extractor removes the first
occurrence of the literal `refs/heads/` anywhere in the branch name — in
particular a leading prefix, which re-prefixes back to the original —
and leaves the branch unchanged exactly in the sense that a branch with
no occurrence at all is matched unmodified; the match always runs on the
cleaned name. -/
theorem extractIssueFromBranch_strip
    (patternMatch : List Char → Option (Option (List Char)))
    (branch : String) :
    (refsHeads.isPrefixOf branch.data = true →
      refsHeads ++ replaceFirst refsHeads branch.data = branch.data) ∧
    (¬ refsHeads <:+: branch.data →
      replaceFirst refsHeads branch.data = branch.data) ∧
    extractIssueFromBranch patternMatch branch =
      matchAndParse patternMatch (replaceFirst refsHeads branch.data) := by
  refine ⟨?_, ?_, rfl⟩
  · intro h
    exact replaceFirst_of_prefix refsHeads branch.data (by decide) h
  · intro h
    exact replaceFirst_of_no_occurrence refsHeads branch.data h

/-- C6 witness: a branch with the leading prefix is stripped back to a
name that re-prefixes to the original, and a branch without any
`refs/heads/` occurrence is left unmodified. -/
theorem extractIssueFromBranch_strip_witness :
    refsHeads ++ replaceFirst refsHeads ("refs/heads/issue-7".data) =
      "refs/heads/issue-7".data ∧
    replaceFirst refsHeads ("main".data) = "main".data := by
  constructor
  · exact (extractIssueFromBranch_strip (fun _ => none)
      "refs/heads/issue-7").1 (by decide)
  · exact (extractIssueFromBranch_strip (fun _ => none)
      "main").2.1 (by decide)

/-- C3: the resolver selects the first fetched (first-50) field whose
name exactly equals `fieldName` — a successful result carries that
field's id and the field itself — and fails with `FieldNotFound` exactly
when no fetched field has that name. -/
theorem resolveField_first_field (allFields : List Field) (fieldName : String)
    (optName : Option String) :
    (resolveField allFields fieldName optName =
        .error (.FieldNotFound fieldName) ↔
      ∀ f ∈ fetchBoardFields allFields, f.name ≠ fieldName) ∧
    (∀ f, (fetchBoardFields allFields).find? (fun g => g.name == fieldName) =
        some f →
      f.name = fieldName ∧
      ∀ r, resolveField allFields fieldName optName = .ok r →
        r.fieldId = f.id ∧ r.field = f) := by
  cases hfind : (fetchBoardFields allFields).find? (fun g => g.name == fieldName) with
  | none =>
    constructor
    · simp only [resolveField, findProjectFields, hfind, true_iff]
      rw [List.find?_eq_none] at hfind
      intro f hf
      simpa using hfind f hf
    · intro f hf
      exact absurd hf (by simp)
  | some field =>
    have hname : field.name = fieldName := by
      simpa using List.find?_some hfind
    have hmem := List.mem_of_find?_eq_some hfind
    constructor
    · constructor
      · intro h
        exfalso
        cases optName with
        | none => simp [resolveField, findProjectFields, hfind] at h
        | some oname =>
          cases hopts : field.options with
          | none =>
            simp [resolveField, findProjectFields, hfind, hopts] at h
          | some opts =>
            by_cases he : oname.isEmpty
            · simp [resolveField, findProjectFields, hfind, hopts, he] at h
            · cases hfo : opts.find? (fun opt => opt.name == oname) with
              | none =>
                simp [resolveField, findProjectFields, hfind, hopts, he,
                  hfo] at h
              | some opt =>
                simp [resolveField, findProjectFields, hfind, hopts, he,
                  hfo] at h
      · intro hnone
        exact absurd hname (hnone field hmem)
    · intro f hf
      injection hf with hfe
      subst hfe
      refine ⟨hname, ?_⟩
      intro r hr
      cases optName with
      | none =>
        simp only [resolveField, findProjectFields, hfind,
          Except.ok.injEq] at hr
        rw [show r = ⟨field.id, none, field⟩ from hr.symm]
        exact ⟨rfl, rfl⟩
      | some oname =>
        cases hopts : field.options with
        | none =>
          simp only [resolveField, findProjectFields, hfind, hopts,
            Except.ok.injEq] at hr
          rw [show r = ⟨field.id, none, field⟩ from hr.symm]
          exact ⟨rfl, rfl⟩
        | some opts =>
          by_cases he : oname.isEmpty
          · simp only [resolveField, findProjectFields, hfind, hopts, he,
              if_true, Except.ok.injEq] at hr
            rw [show r = ⟨field.id, none, field⟩ from hr.symm]
            exact ⟨rfl, rfl⟩
          · rw [Bool.not_eq_true] at he
            cases hfo : opts.find? (fun opt => opt.name == oname) with
            | none =>
              simp [resolveField, findProjectFields, hfind, hopts, he,
                hfo] at hr
            | some opt =>
              simp only [resolveField, findProjectFields, hfind, hopts,
                he, Bool.false_eq_true, if_false, hfo,
                Except.ok.injEq] at hr
              rw [show r = ⟨field.id, some opt.id, field⟩ from hr.symm]
              exact ⟨rfl, rfl⟩

/-- The single-select status field of the resolver witnesses. -/
def statusField : Field :=
  ⟨"fStatus", "Status", some [⟨"o1", "Todo"⟩, ⟨"o2", "Done"⟩]⟩

/-- The option-less date field of the resolver witnesses. -/
def dateField : Field := ⟨"fDate", "End date", none⟩

/-- The field list used by the resolver witnesses. -/
def witnessFields : List Field := [dateField, statusField]

/-- C3 witness: on a concrete board the resolver fails with
`FieldNotFound` exactly for an absent name, and a successful resolution
returns the first matching field. -/
theorem resolveField_first_field_witness :
    (resolveField witnessFields "Priority" none =
        .error (.FieldNotFound "Priority") ↔
      ∀ f ∈ fetchBoardFields witnessFields, f.name ≠ "Priority") ∧
    statusField.name = "Status" := by
  constructor
  · exact (resolveField_first_field witnessFields "Priority" none).1
  · exact ((resolveField_first_field witnessFields "Status" none).2
      statusField (by decide)).1

/-- C4 counterexample: an empty-string `optionName` is supplied and the
resolved field carries options none of which is named the empty string,
yet the call does not fail with `OptionNotFound`: line 239's
`optionName && field.options` is falsy for `''`, so option resolution is
skipped and `optionId` stays null. -/
theorem resolveField_option_counterexample :
    (∀ o ∈ [(⟨"o1", "Todo"⟩ : SelectOption), ⟨"o2", "Done"⟩],
      o.name ≠ "") ∧
    resolveField witnessFields "Status" (some "") =
      .ok ⟨"fStatus", none, statusField⟩ ∧
    resolveField witnessFields "Status" (some "") ≠
      .error (.OptionNotFound "") := by
  have hres : resolveField witnessFields "Status" (some "") =
      .ok ⟨"fStatus", none, statusField⟩ := rfl
  refine ⟨by decide, hres, ?_⟩
  rw [hres]
  intro h
  exact Except.noConfusion h

/-- C4 (amended): when a nonempty `optionName` is supplied and the
resolved field carries options, the returned `optionId` is the id of the
first option whose name exactly equals `optionName`, and the call fails
with `OptionNotFound` exactly when no option name matches; when the
resolved field carries no options the call succeeds with no option id;
an empty `optionName` is falsy and skips option resolution, succeeding
with no option id even when options are present. -/
theorem resolveField_option (allFields : List Field) (fieldName oname : String)
    (f : Field)
    (hf : (fetchBoardFields allFields).find? (fun g => g.name == fieldName) =
      some f) :
    (oname.isEmpty = false →
      ∀ opts, f.options = some opts →
        ((resolveField allFields fieldName (some oname) =
            .error (.OptionNotFound oname)) ↔
          ∀ o ∈ opts, o.name ≠ oname) ∧
        ∀ o, opts.find? (fun o2 => o2.name == oname) = some o →
          resolveField allFields fieldName (some oname) =
            .ok ⟨f.id, some o.id, f⟩) ∧
    (f.options = none →
      resolveField allFields fieldName (some oname) = .ok ⟨f.id, none, f⟩) ∧
    (∀ opts, f.options = some opts →
      resolveField allFields fieldName (some "") = .ok ⟨f.id, none, f⟩) := by
  refine ⟨?_, ?_, ?_⟩
  · intro hne opts hopts
    constructor
    · cases hfo : opts.find? (fun o2 => o2.name == oname) with
      | none =>
        simp only [resolveField, findProjectFields, hf, hopts, hne,
          Bool.false_eq_true, if_false, hfo, true_iff]
        rw [List.find?_eq_none] at hfo
        intro o ho
        simpa using hfo o ho
      | some o =>
        simp only [resolveField, findProjectFields, hf, hopts, hne,
          Bool.false_eq_true, if_false, hfo]
        constructor
        · intro h
          exact absurd h (by simp)
        · intro hnone
          have hmem := List.mem_of_find?_eq_some hfo
          have ho : o.name = oname := by
            simpa using List.find?_some hfo
          exact absurd ho (hnone o hmem)
    · intro o hfo
      simp [resolveField, findProjectFields, hf, hopts, hne, hfo]
  · intro hopts
    simp [resolveField, findProjectFields, hf, hopts]
  · intro opts hopts
    simp only [resolveField, findProjectFields, hf, hopts]
    rw [if_pos (show ("" : String).isEmpty = true by rfl)]

/-- C4 witness: on the concrete board, resolving `Status` with option
`Done` returns the first matching option's id, an absent option name
fails with `OptionNotFound`, an option name on the option-less date
field succeeds with no option id, and the empty option name skips
resolution. -/
theorem resolveField_option_witness :
    resolveField witnessFields "Status" (some "Done") =
      .ok ⟨"fStatus", some "o2", statusField⟩ ∧
    (resolveField witnessFields "Status" (some "Blocked") =
        .error (.OptionNotFound "Blocked") ↔
      ∀ o ∈ [(⟨"o1", "Todo"⟩ : SelectOption), ⟨"o2", "Done"⟩],
        o.name ≠ "Blocked") ∧
    resolveField witnessFields "End date" (some "Done") =
      .ok ⟨"fDate", none, dateField⟩ ∧
    resolveField witnessFields "Status" (some "") =
      .ok ⟨"fStatus", none, statusField⟩ := by
  refine ⟨?_, ?_, ?_, ?_⟩
  · exact ((resolveField_option witnessFields "Status" "Done" statusField
      (by decide)).1 (by decide) [⟨"o1", "Todo"⟩, ⟨"o2", "Done"⟩] rfl).2
      ⟨"o2", "Done"⟩ (by decide)
  · exact ((resolveField_option witnessFields "Status" "Blocked" statusField
      (by decide)).1 (by decide) [⟨"o1", "Todo"⟩, ⟨"o2", "Done"⟩] rfl).1
  · exact (resolveField_option witnessFields "End date" "Done" dateField
      (by decide)).2.1 rfl
  · exact (resolveField_option witnessFields "Status" "Done" statusField
      (by decide)).2.2 [⟨"o1", "Todo"⟩, ⟨"o2", "Done"⟩] rfl

end ProjectsAutomation
